import Mathlib

/-!
# Verification of the matrix_calc core (`src/main.c`)

A shallow embedding of the matrix text parser and the matrix algebra engine
of `matrix_calc`.  C `double` values are modelled as exact rationals (`ℚ`);
the dense row-major value buffer of the C `Matrix` struct is modelled as a
`List ℚ`, indexed through `idx` (out-of-range reads return the junk value
`0`, standing in for indeterminate memory that the C code never relies on
along the verified paths).  Fallible C code (which calls `exit`) is modelled
with `Except`.
-/

namespace MatrixCalc

/-- The C `Matrix` struct: `rows`, `cols` and a dense row-major buffer
`values` (of length `rows * cols` in every state the program creates). -/
structure Mat where
  rows : ℕ
  cols : ℕ
  values : List ℚ
deriving DecidableEq

/-- Reading the flat buffer: `matrix->values[k]`. -/
def idx (m : Mat) (k : ℕ) : ℚ := m.values.getD k 0

/-- Error exits of the algebra engine (C `exit(INVALID_MATRIX)` sites,
distinguished by their stderr message, named as in the spec). -/
inductive MatErr where
  | SingularMatrix
  | DimensionMismatch
deriving DecidableEq

deriving instance DecidableEq for Except

/-- `get_transpose` (main.c:328-340): a `(cols, rows)` matrix whose cell
`(j, i)` holds `matrix->values[i*cols + j]`.  The C loop fills the cells
column by column; the buffer below lists the same final cell contents in
row-major order. -/
def get_transpose (m : Mat) : Mat :=
  ⟨m.cols, m.rows,
    (List.range m.cols).flatMap fun j =>
      (List.range m.rows).map fun i => idx m (i * m.cols + j)⟩

/-- `get_product` (main.c:343-360): a `(rows₁, cols₂)` matrix; cell `(k, i)`
accumulates `sum += m1[k,j] * m2[j,i]` over `j < m1.cols` starting from `0`.
No dimension check is performed here (the check lives in `product`). -/
def get_product (m1 m2 : Mat) : Mat :=
  ⟨m1.rows, m2.cols,
    (List.range m1.rows).flatMap fun k =>
      (List.range m2.cols).map fun i =>
        (List.range m1.cols).foldl
          (fun sum j => sum + idx m1 (k * m1.cols + j) * idx m2 (j * m2.cols + i)) 0⟩

/-- The sub matrix built inside `find_det`'s `top_row` loop (main.c:370-388):
rows `1 ≤ i < rows`, columns `j ≠ top_row`, written consecutively (`k++`). -/
def det_sub (m : Mat) (top_row : ℕ) : Mat :=
  ⟨m.rows - 1, m.cols - 1,
    (List.range' 1 (m.rows - 1)).flatMap fun i =>
      (List.range m.cols).flatMap fun j =>
        if j ≠ top_row then [idx m (i * m.cols + j)] else []⟩

/-- `find_det` (main.c:363-396), recursive cofactor expansion along the top
row.  The C recursion descends through `rows, rows-1, …, 2`; here the
recursion is paid for with a fuel parameter (`find_det` below supplies
`m.rows`, which is enough fuel on every input the program reaches, namely
`rows = cols ≥ 2`). -/
def find_detF : ℕ → Mat → ℚ
  | 0, _ => 0
  | fuel + 1, m =>
    if m.rows = 2 then
      idx m 0 * idx m 3 - idx m 1 * idx m 2
    else
      (List.range m.cols).foldl
        (fun det top_row =>
          det + (-1 : ℚ) ^ top_row * idx m top_row * find_detF fuel (det_sub m top_row)) 0

/-- `find_det` proper: the C function, entered by `get_determinant` whenever
`rows ≠ 1`. -/
def find_det (m : Mat) : ℚ := find_detF m.rows m

/-- `get_determinant` (main.c:399-408): the single element for a 1×1 matrix,
otherwise `find_det`. -/
def get_determinant (m : Mat) : ℚ :=
  if m.rows = 1 then idx m 0 else find_det m

/-- The minor matrix built inside `find_cofactor`'s element loop
(main.c:417-433): rows `a ≠ i`, columns `b ≠ j`, written consecutively. -/
def cof_minor (m : Mat) (i j : ℕ) : Mat :=
  ⟨m.rows - 1, m.cols - 1,
    (List.range m.rows).flatMap fun a =>
      (List.range m.cols).flatMap fun b =>
        if b ≠ j ∧ a ≠ i then [idx m (a * m.cols + b)] else []⟩

/-- `find_cofactor` (main.c:411-444): same dimensions as the input, cell
`(i, j)` holds `pow(-1, i+j) * get_determinant(minor_mat)`. -/
def find_cofactor (m : Mat) : Mat :=
  ⟨m.rows, m.cols,
    (List.range m.rows).flatMap fun i =>
      (List.range m.cols).map fun j =>
        (-1 : ℚ) ^ (i + j) * get_determinant (cof_minor m i j)⟩

/-- `get_adjoint` (main.c:447-462): for a one-row matrix, a matrix whose
single written cell is `1`; otherwise the transpose of the cofactor
matrix. -/
def get_adjoint (m : Mat) : Mat :=
  if m.rows = 1 then ⟨m.rows, m.cols, [1]⟩
  else get_transpose (find_cofactor m)

/-- `get_inverse` (main.c:465-488): exits with the singular-matrix error
when the determinant is exactly `0`; otherwise divides every adjoint cell
by the determinant. -/
def get_inverse (m : Mat) : Except MatErr Mat :=
  let det := get_determinant m
  if det = 0 then .error .SingularMatrix
  else .ok ⟨m.rows, m.cols,
    (List.range m.rows).flatMap fun i =>
      (List.range m.cols).map fun j =>
        idx (get_adjoint m) (i * (get_adjoint m).cols + j) / det⟩

/-- The `product` wrapper (main.c:575-605): rejects the pair when neither
operand order is compatible; silently swaps the operands when only the
reversed order is compatible (the `Bool` records that a swap happened, as
the C code reports it on stdout); otherwise multiplies in the given
order. -/
def product (a b : Mat) : Except MatErr (Bool × Mat) :=
  if a.cols ≠ b.rows ∧ b.cols ≠ a.rows then .error .DimensionMismatch
  else if a.cols ≠ b.rows ∧ b.cols = a.rows then .ok (true, get_product b a)
  else .ok (false, get_product a b)

/-- Bridge to Mathlib: the `n × n` matrix read off a `Mat` whose row stride
is `m.cols` (used only in proofs, with `m.rows = m.cols = n`). -/
def toM (m : Mat) (n : ℕ) : Matrix (Fin n) (Fin n) ℚ :=
  Matrix.of fun i j => idx m (i.val * m.cols + j.val)

/-! ## The matrix text parser (main.c:141-300)

The text source is a list of characters; the C `FILE*` cursor is the
remaining character list.  The C code's global parse context (`Context`:
current line number, most recent `strtok` token) is threaded explicitly,
together with the `strtok` state (the tokens of the current line not yet
returned).  Note: `read_matrix` in C leaves `Context.line_number` and
`Context.token` uninitialized; they are modelled as `0` and `none`, i.e.
lines are counted from the start of the parse. -/

/-- `#define MAX_LINE_LENGTH 40000` (main.c:51). -/
def MAX_LINE_LENGTH : ℕ := 40000

/-- `#define MAX_ROWS_COLS 2000` (main.c:52). -/
def MAX_ROWS_COLS : ℕ := 2000

/-- `TOKEN_SEPARATORS " \t\r\n"` (main.c:53), the `strtok` separators. -/
def isTokenSep (c : Char) : Bool :=
  c == ' ' || c == '\t' || c == '\r' || c == '\n'

/-- C `isspace` in the default locale, used by `strtol`/`strtod` to skip
leading white space. -/
def isSpaceC (c : Char) : Bool :=
  c == ' ' || c == '\t' || c == '\n' || c == '\x0b' || c == '\x0c' || c == '\r'

def isDigitC (c : Char) : Bool := '0' ≤ c && c ≤ '9'

def isHexDigitC (c : Char) : Bool :=
  isDigitC c || ('a' ≤ c && c ≤ 'f') || ('A' ≤ c && c ≤ 'F')

def digitVal (c : Char) : ℕ := c.toNat - 48

def hexDigitVal (c : Char) : ℕ :=
  if isDigitC c then c.toNat - 48
  else if 'a' ≤ c && c ≤ 'f' then c.toNat - 87
  else c.toNat - 55

/-- Value of a base-10 digit string. -/
def decVal (l : List Char) : ℕ := l.foldl (fun a c => 10 * a + digitVal c) 0

/-- Value of a base-16 digit string. -/
def hexVal (l : List Char) : ℕ := l.foldl (fun a c => 16 * a + hexDigitVal c) 0

/-- Case-insensitive character comparison (for `strtod`'s `inf`/`nan`). -/
def eqCI (c d : Char) : Bool :=
  (if 65 ≤ c.toNat && c.toNat ≤ 90 then c.toNat + 32 else c.toNat) ==
    (if 65 ≤ d.toNat && d.toNat ≤ 90 then d.toNat + 32 else d.toNat)

/-- Does `s` start with the (case-insensitive) pattern `p`? -/
def matchCI : List Char → List Char → Bool
  | [], _ => true
  | _ :: _, [] => false
  | p :: ps, c :: cs => eqCI p c && matchCI ps cs

/-- Characters allowed in a `nan(…)` sequence: alphanumerics and `_`. -/
def isNanSeqChar (c : Char) : Bool :=
  isDigitC c || ('a' ≤ c && c ≤ 'z') || ('A' ≤ c && c ≤ 'Z') || c == '_'

/-- `C strtol(s, &end, 10)`: skip `isspace` white space, an optional sign,
then base-10 digits; with no digits there is no conversion (the end pointer
is left at the start).  Returns (characters consumed, value).  (The C
`long` overflow clamp is immaterial here: `get_int` rejects every value
outside `[1, 2000]` anyway.) -/
def strtolParse (s : List Char) : ℕ × ℤ :=
  let w := (s.takeWhile isSpaceC).length
  let s1 := s.dropWhile isSpaceC
  let sg : ℤ × ℕ :=
    match s1 with
    | '-' :: _ => (-1, 1)
    | '+' :: _ => (1, 1)
    | _ => (1, 0)
  let ds := (s1.drop sg.2).takeWhile isDigitC
  if ds.isEmpty then (0, 0) else (w + sg.2 + ds.length, sg.1 * decVal ds)

/-- The digits of a decimal or hexadecimal mantissa: integer digits, an
optional period, fraction digits.  Returns (integer digits, fraction
digits, characters consumed). -/
def parseMant (isDig : Char → Bool) (s : List Char) : List Char × List Char × ℕ :=
  let ip := s.takeWhile isDig
  match s.drop ip.length with
  | '.' :: r =>
    let fp := r.takeWhile isDig
    (ip, fp, ip.length + 1 + fp.length)
  | _ => (ip, [], ip.length)

/-- An optional exponent part: a marker character (`e`/`E` or `p`/`P`), an
optional sign, then base-10 digits; consumed only when at least one digit
follows.  Returns (characters consumed, exponent value). -/
def parseExpWith (isMark : Char → Bool) (s : List Char) : ℕ × ℤ :=
  match s with
  | [] => (0, 0)
  | c :: rest =>
    if isMark c then
      let sg : ℤ × ℕ :=
        match rest with
        | '-' :: _ => (-1, 1)
        | '+' :: _ => (1, 1)
        | _ => (1, 0)
      let ds := (rest.drop sg.2).takeWhile isDigitC
      if ds.isEmpty then (0, 0) else (1 + sg.2 + ds.length, sg.1 * decVal ds)
    else (0, 0)

/-- `mant * 10 ^ e` in `ℚ`. -/
def scaleDec (mant : ℚ) (e : ℤ) : ℚ :=
  if 0 ≤ e then mant * 10 ^ e.toNat else mant / 10 ^ (-e).toNat

/-- `mant * 2 ^ e` in `ℚ`. -/
def scaleBin (mant : ℚ) (e : ℤ) : ℚ :=
  if 0 ≤ e then mant * 2 ^ e.toNat else mant / 2 ^ (-e).toNat

/-- C `strtod(s, &end)` (C17 7.22.1.3): skip white space, an optional
sign, then either a case-insensitive `infinity`/`inf`, a case-insensitive
`nan` with an optional `(n-char-seq)`, a hexadecimal mantissa `0x`/`0X`
followed by hex digits optionally containing a period and an optional
`p`-exponent, or a decimal mantissa with an optional `e`-exponent.  With
no digits after `0x`, the subject sequence is just the `0`.  Returns
(characters consumed, value).  IEEE infinities and NaN have no rational
value; the model stores `0` for them — only *acceptance* of such tokens
(full consumption, which is what `get_double` tests) is meaningful. -/
def strtodParse (s : List Char) : ℕ × ℚ :=
  let w := (s.takeWhile isSpaceC).length
  let s1 := s.dropWhile isSpaceC
  let sg : ℚ × ℕ :=
    match s1 with
    | '-' :: _ => (-1, 1)
    | '+' :: _ => (1, 1)
    | _ => (1, 0)
  let s2 := s1.drop sg.2
  if matchCI ['i', 'n', 'f', 'i', 'n', 'i', 't', 'y'] s2 then (w + sg.2 + 8, 0)
  else if matchCI ['i', 'n', 'f'] s2 then (w + sg.2 + 3, 0)
  else if matchCI ['n', 'a', 'n'] s2 then
    match s2.drop 3 with
    | '(' :: r =>
      let q := r.takeWhile isNanSeqChar
      match r.drop q.length with
      | ')' :: _ => (w + sg.2 + 3 + 1 + q.length + 1, 0)
      | _ => (w + sg.2 + 3, 0)
    | _ => (w + sg.2 + 3, 0)
  else if matchCI ['0', 'x'] s2 then
    let h := s2.drop 2
    let pm := parseMant isHexDigitC h
    if pm.1.isEmpty && pm.2.1.isEmpty then (w + sg.2 + 1, 0)
    else
      let mant : ℚ := (hexVal pm.1 : ℚ) + (hexVal pm.2.1 : ℚ) / 16 ^ pm.2.1.length
      let ex := parseExpWith (fun c => c == 'p' || c == 'P') (h.drop pm.2.2)
      (w + sg.2 + 2 + pm.2.2 + ex.1, sg.1 * scaleBin mant ex.2)
  else
    let pm := parseMant isDigitC s2
    if pm.1.isEmpty && pm.2.1.isEmpty then (0, 0)
    else
      let mant : ℚ := (decVal pm.1 : ℚ) + (decVal pm.2.1 : ℚ) / 10 ^ pm.2.1.length
      let ex := parseExpWith (fun c => c == 'e' || c == 'E') (s2.drop pm.2.2)
      (w + sg.2 + pm.2.2 + ex.1, sg.1 * scaleDec mant ex.2)

/-- Parse failures.  `invalidFile` is `exit_invalid_file` (main.c:107-113),
which prints the file name, the `message`, the current `line` number and
the most recent `token` and exits with `INVALID_FILE`; `crash` marks the
undefined behaviour reached when `read_rows_cols` hands `strtol` a null
pointer (a `matrix` line with fewer than two following tokens).  Opening
the source (`IOFailure`) happens before this model starts; no constructor
exists for it because the parsing code has no such exit. -/
inductive Err where
  | invalidFile (line : ℕ) (token : Option String) (message : String)
  | crash
deriving DecidableEq

/-- The C `Context` plus the `strtok` cursor: remaining input, current
line number, tokens of the current line not yet handed out, and the most
recently returned token (`Context.token`, `none` for C `NULL`). -/
structure Ctx where
  rest : List Char
  line_number : ℕ
  toks : List String
  token : Option String
deriving DecidableEq

def errInvalid (c : Ctx) (msg : String) : Err :=
  .invalidFile c.line_number c.token msg

/-- `fgets(line, k+1, f)` on a character stream: read up to `k` characters,
stopping after a newline.  Returns (characters read, remaining stream). -/
def fgetsGo : ℕ → List Char → List Char × List Char
  | 0, s => ([], s)
  | _ + 1, [] => ([], [])
  | k + 1, ch :: cs =>
    if ch = '\n' then ([ch], cs)
    else
      let p := fgetsGo k cs
      (ch :: p.1, p.2)

/-- `strtok(line, TOKEN_SEPARATORS)` splitting of a whole line into its
(nonempty) tokens, via an accumulator for the token being read. -/
def tokenizeGo : List Char → List Char → List String
  | [], acc => if acc.isEmpty then [] else [String.mk acc.reverse]
  | ch :: cs, acc =>
    if isTokenSep ch then
      if acc.isEmpty then tokenizeGo cs []
      else String.mk acc.reverse :: tokenizeGo cs []
    else tokenizeGo cs (ch :: acc)

def tokenize (s : List Char) : List String := tokenizeGo s []

/-- `read_line` (main.c:142-159): bump the line number, read a chunk with
`fgets` (error on end of input — note the C comment claims `fgets` also
returns `NULL` on an over-long line, which `fgets` does not do: a line
longer than `MAX_LINE_LENGTH - 1` characters is simply read in several
chunks), tokenize it, and skip blank/comment lines by recursing.  The C
recursion consumes at least one character per step; the fuel argument
(`read_line` passes `rest.length + 1`) therefore never runs out. -/
def read_lineF : ℕ → Ctx → Except Err Ctx
  | 0, c => .error (.invalidFile (c.line_number + 1) c.token "")
  | fuel + 1, c =>
    match c.rest with
    | [] => .error (.invalidFile (c.line_number + 1) c.token "")
    | ch :: cs =>
      let p := fgetsGo (MAX_LINE_LENGTH - 1) (ch :: cs)
      match tokenize p.1 with
      | [] => read_lineF fuel ⟨p.2, c.line_number + 1, [], none⟩
      | t :: ts =>
        if t.data.head? = some '#' then read_lineF fuel ⟨p.2, c.line_number + 1, ts, some t⟩
        else .ok ⟨p.2, c.line_number + 1, ts, some t⟩

def read_line (c : Ctx) : Except Err Ctx := read_lineF (c.rest.length + 1) c

/-- `get_new_token` (main.c:162-166): the next `strtok(NULL, …)` token,
recorded as the context token (`NULL` when the line is exhausted). -/
def get_new_token (c : Ctx) : Ctx :=
  match c.toks with
  | [] => { c with token := none }
  | t :: ts => { c with token := some t, toks := ts }

/-- `get_int` (main.c:169-185): `strtol` must consume the whole token and
yield a value in `[1, MAX_ROWS_COLS]`.  A `none` token is the null pointer
`strtok` returned; the C code passes it straight to `strtol`, which is
undefined behaviour (`crash`). -/
def get_int (c : Ctx) : Except Err ℤ :=
  match c.token with
  | none => .error .crash
  | some t =>
    let p := strtolParse t.data
    if p.1 ≠ t.data.length ∨ p.2 < 1 then
      .error (errInvalid c "Stated rows or columns are invalid.")
    else if p.2 > (MAX_ROWS_COLS : ℤ) then
      .error (errInvalid c "Rows or columns of the matrix are bigger than the maximum value allowed.")
    else .ok p.2

/-- `get_double` (main.c:188-200): `strtod` must consume the whole token. -/
def get_double (t : String) (c : Ctx) : Except Err ℚ :=
  let p := strtodParse t.data
  if p.1 ≠ t.data.length then .error (errInvalid c "Matrix element is invalid.")
  else .ok p.2

/-- `read_rows_cols` (main.c:203-220): the first significant line must be
`matrix <rows> <cols>` optionally followed by a comment token. -/
def read_rows_cols (c : Ctx) : Except Err (ℤ × ℤ × Ctx) :=
  match c.token with
  | none => .error .crash
  | some t =>
    if t ≠ "matrix" then .error (errInvalid c "")
    else
      let c1 := get_new_token c
      match get_int c1 with
      | .error e => .error e
      | .ok r =>
        let c2 := get_new_token c1
        match get_int c2 with
        | .error e => .error e
        | .ok cl =>
          let c3 := get_new_token c2
          match c3.token with
          | some t2 =>
            if t2.data.head? ≠ some '#' then
              .error (errInvalid c3 "There are unexpected characters in the file.")
            else .ok (r, cl, c3)
          | none => .ok (r, cl, c3)

/-- Trailing-content check `token != NULL && *token != '#'` shared by the
per-row loop, `read_rows_cols` and `read_file_end` (inverted: `true` when
the rest of the line is acceptable). -/
def trailing_ok (c : Ctx) : Bool :=
  match c.token with
  | none => true
  | some t => t.data.head? == some '#'

/-- The inner column loop of `read_array` (main.c:228-243): read `n` more
elements of the current row. -/
def read_cells : ℕ → Ctx → Except Err (List ℚ × Ctx)
  | 0, c => .ok ([], c)
  | n + 1, c =>
    match c.token with
    | none => .error (errInvalid c "Number of stated columns does not match file.")
    | some t =>
      if t = "end" then .error (errInvalid c "Number of stated rows does not match file.")
      else
        match get_double t c with
        | .error e => .error e
        | .ok v =>
          match read_cells n (get_new_token c) with
          | .error e => .error e
          | .ok pr => .ok (v :: pr.1, pr.2)

/-- `read_array` (main.c:223-250): `rows` significant lines of `cols`
elements each, comments allowed after the last element of a line. -/
def read_array : ℕ → ℕ → Ctx → Except Err (List ℚ × Ctx)
  | 0, _, c => .ok ([], c)
  | i + 1, cols, c =>
    match read_line c with
    | .error e => .error e
    | .ok c1 =>
      match read_cells cols c1 with
      | .error e => .error e
      | .ok pr =>
        if trailing_ok pr.2 then
          match read_array i cols pr.2 with
          | .error e => .error e
          | .ok pr2 => .ok (pr.1 ++ pr2.1, pr2.2)
        else .error (errInvalid pr.2 "Unexpected characters in the file.")

/-- Proof device (like `toM`, used only in statements and proofs): the
parse state after `j` completed iterations of `read_array`'s row loop
(line read, `cols` cells, trailing check) starting from `c`; `none` when
one of those steps did not complete normally. -/
def rows_iter (cols : ℕ) : ℕ → Ctx → Option Ctx
  | 0, c => some c
  | j + 1, c =>
    match read_line c with
    | .error _ => none
    | .ok c1 =>
      match read_cells cols c1 with
      | .error _ => none
      | .ok pr => if trailing_ok pr.2 then rows_iter cols j pr.2 else none

/-- `read_file_end` (main.c:253-267): one more significant line holding
exactly the token `end`, optionally followed by a comment token. -/
def read_file_end (c : Ctx) : Except Err Ctx :=
  match read_line c with
  | .error e => .error e
  | .ok c1 =>
    if c1.token ≠ some "end" then .error (errInvalid c1 "Could not find the end of the file.")
    else
      let c2 := get_new_token c1
      if trailing_ok c2 then .ok c2
      else .error (errInvalid c2 "Unexpected characters in the file.")

/-- The tail of `read_matrix` after the first significant line has been
read: parse the header tokens, the `rows × cols` element lines, then the
terminator. -/
def read_matrix_body (c1 : Ctx) : Except Err Mat :=
  match read_rows_cols c1 with
  | .error e => .error e
  | .ok rc =>
    match read_array rc.1.toNat rc.2.1.toNat rc.2.2 with
    | .error e => .error e
    | .ok pr =>
      match read_file_end pr.2 with
      | .error e => .error e
      | .ok _ => .ok ⟨rc.1.toNat, rc.2.1.toNat, pr.1⟩

/-- `read_matrix` (main.c:270-300), minus the `fopen` (whose failure is
the `IOFailure`/`FILE_OPEN_ERROR` exit, before any parsing): read the
first significant line, then the rest. -/
def read_matrix (src : List Char) : Except Err Mat :=
  let c0 : Ctx := ⟨src, 0, [], none⟩
  match read_line c0 with
  | .error e => .error e
  | .ok c1 => read_matrix_body c1

/-- The fixed set of diagnostic messages `read_matrix` can emit (every
`exit_invalid_file` call site in main.c). -/
def msgSet : List String :=
  ["",
   "Stated rows or columns are invalid.",
   "Rows or columns of the matrix are bigger than the maximum value allowed.",
   "Matrix element is invalid.",
   "Number of stated columns does not match file.",
   "Number of stated rows does not match file.",
   "There are unexpected characters in the file.",
   "Unexpected characters in the file.",
   "Could not find the end of the file."]

/-! ## List helpers: reading a flat row-major buffer cell-wise -/

/-- The C accumulation loop `for (...) det += f(j);` as a list sum. -/
theorem foldl_add_eq_sum (f : ℕ → ℚ) :
    ∀ (l : List ℕ) (a : ℚ), l.foldl (fun s j => s + f j) a = a + (l.map f).sum := by
  intro l
  induction l with
  | nil => intro a; simp
  | cons x xs ih => intro a; simp [List.foldl_cons, ih, add_assoc]

/-- A guarded write loop is a `filter`/`map`. -/
theorem flatMap_if_eq_filter_map (p : ℕ → Prop) [DecidablePred p] (f : ℕ → ℚ) (l : List ℕ) :
    (l.flatMap fun b => if p b then [f b] else []) = (l.filter fun b => decide (p b)).map f := by
  induction l with
  | nil => rfl
  | cons x xs ih =>
    by_cases h : p x <;> simp [List.flatMap_cons, List.filter_cons, h, ih]

/-- Reading position `i * L + k` of a buffer written by an outer loop over
`l` whose iterations each append `L` cells. -/
theorem flatMap_getD (F : ℕ → List ℚ) (L : ℕ) :
    ∀ (l : List ℕ) (i k : ℕ), (∀ a ∈ l, (F a).length = L) → i < l.length → k < L →
      (l.flatMap F).getD (i * L + k) 0 = (F (l.getD i 0)).getD k 0 := by
  intro l
  induction l with
  | nil => intro i k _ hi; exact absurd hi (by simp)
  | cons x xs ih =>
    intro i k hlen hi hk
    match i with
    | 0 =>
      have hx : (F x).length = L := hlen x (by simp)
      simpa [List.flatMap_cons] using List.getD_append (F x) (xs.flatMap F) 0 k (by omega)
    | i + 1 =>
      have hx : (F x).length = L := hlen x (by simp)
      have h1 : (F x).length ≤ (i + 1) * L + k := by
        have : L ≤ (i + 1) * L := Nat.le_mul_of_pos_left L (by omega)
        omega
      have h2 : (i + 1) * L + k - (F x).length = i * L + k := by
        rw [hx]; rw [Nat.succ_mul]; omega
      rw [List.flatMap_cons, List.getD_append_right (F x) (xs.flatMap F) 0 _ h1, h2]
      exact ih i k (fun a ha => hlen a (by simp [ha])) (by simpa using hi) hk

/-- Skipping element `c` of `0, 1, …, n-1` leaves `g c j := if j < c then j
else j + 1` at position `j`. -/
theorem range_filter_ne (c n : ℕ) (hc : c < n) :
    (List.range n).filter (fun j => decide (j ≠ c)) =
      (List.range (n - 1)).map (fun j => if j < c then j else j + 1) := by
  induction n with
  | zero => omega
  | succ n ih =>
    rw [List.range_succ, List.filter_append]
    rcases Nat.lt_or_ge c n with h | h
    · have hvn : List.range (n + 1 - 1) = List.range (n - 1) ++ [n - 1] := by
        have hn : n + 1 - 1 = (n - 1) + 1 := by omega
        rw [hn, List.range_succ]
      have hne : List.filter (fun j => decide (j ≠ c)) [n] = [n] := by
        have : n ≠ c := by omega
        simp [this]
      rw [ih h, hvn, List.map_append, hne]
      congr 1
      have hge : ¬ n - 1 < c := by omega
      simp only [List.map_cons, List.map_nil, if_neg hge]
      congr 1
      omega
    · have hcn : c = n := by omega
      subst hcn
      have h1 : (List.range c).filter (fun j => decide (j ≠ c)) = List.range c := by
        apply List.filter_eq_self.mpr
        intro a ha
        simp only [List.mem_range] at ha
        simp only [decide_eq_true_eq]
        omega
      have h2 : ∀ j ∈ List.range c, (if j < c then j else j + 1) = j := by
        intro j hj
        simp only [List.mem_range] at hj
        simp [hj]
      simp [h1, List.map_congr_left h2]
      intro a ha
      omega

/-- A list sum over `List.range` is the matching `Finset.range` sum. -/
theorem sum_map_range (f : ℕ → ℚ) (n : ℕ) :
    ((List.range n).map f).sum = ∑ i ∈ Finset.range n, f i := by
  induction n with
  | zero => simp
  | succ n ih =>
    rw [List.range_succ, Finset.sum_range_succ, List.map_append, List.sum_append, ih]
    simp

theorem getD_range (n i : ℕ) (hi : i < n) : (List.range n).getD i 0 = i := by
  rw [List.getD_eq_getElem _ _ (by simpa using hi)]
  simp

theorem getD_map_range {β : Type} (f : ℕ → β) (d : β) (n i : ℕ) (hi : i < n) :
    ((List.range n).map f).getD i d = f i := by
  rw [List.getD_eq_getElem _ _ (by simpa using hi)]
  simp

theorem getD_range' (s k i : ℕ) (hi : i < k) : (List.range' s k).getD i 0 = s + i := by
  rw [List.getD_eq_getElem _ _ (by simpa using hi)]
  simp

/-- Reading cell `(i, j)` of an `R × C` buffer written row-major. -/
theorem grid_idx (R C : ℕ) (f : ℕ → ℕ → ℚ) (i j : ℕ) (hi : i < R) (hj : j < C) :
    ((List.range R).flatMap fun a => (List.range C).map fun b => f a b).getD (i * C + j) 0 =
      f i j := by
  rw [flatMap_getD _ C _ i j (fun a _ => by simp) (by simpa using hi) hj]
  rw [getD_range R i hi, getD_map_range _ _ C j hj]

/-- Loop iterations producing nothing can be dropped from a `flatMap`. -/
theorem flatMap_eq_filter_flatMap (G : ℕ → List ℚ) (p : ℕ → Bool) :
    ∀ l : List ℕ, (∀ a ∈ l, p a = false → G a = []) →
      l.flatMap G = (l.filter p).flatMap G := by
  intro l
  induction l with
  | nil => simp
  | cons x xs ih =>
    intro h
    rw [List.flatMap_cons, List.filter_cons]
    by_cases hx : p x = true
    · rw [if_pos hx, List.flatMap_cons, ih fun a ha => h a (by simp [ha])]
    · have hxf : p x = false := by simpa using hx
      rw [if_neg hx, h x (by simp) hxf, List.nil_append, ih fun a ha => h a (by simp [ha])]

theorem flatMap_congr_mem (l : List ℕ) (F G : ℕ → List ℚ) (h : ∀ a ∈ l, F a = G a) :
    l.flatMap F = l.flatMap G := by
  induction l with
  | nil => rfl
  | cons x xs ih =>
    rw [List.flatMap_cons, List.flatMap_cons, h x (by simp),
      ih fun a ha => h a (by simp [ha])]

/-! ## Cell-level descriptions of the algebra operations -/

theorem get_transpose_idx (m : Mat) (i j : ℕ) (hi : i < m.rows) (hj : j < m.cols) :
    idx (get_transpose m) (j * m.rows + i) = idx m (i * m.cols + j) := by
  show ((List.range m.cols).flatMap fun jj =>
      (List.range m.rows).map fun ii => idx m (ii * m.cols + jj)).getD (j * m.rows + i) 0 = _
  exact grid_idx m.cols m.rows (fun jj ii => idx m (ii * m.cols + jj)) j i hj hi

theorem get_product_idx (m1 m2 : Mat) (k i : ℕ) (hk : k < m1.rows) (hi : i < m2.cols) :
    idx (get_product m1 m2) (k * m2.cols + i) =
      ((List.range m1.cols).map fun j => idx m1 (k * m1.cols + j) * idx m2 (j * m2.cols + i)).sum := by
  show ((List.range m1.rows).flatMap fun kk => (List.range m2.cols).map fun ii =>
      (List.range m1.cols).foldl
        (fun sum j => sum + idx m1 (kk * m1.cols + j) * idx m2 (j * m2.cols + ii)) 0).getD
      (k * m2.cols + i) 0 = _
  rw [grid_idx m1.rows m2.cols _ k i hk hi]
  rw [foldl_add_eq_sum _ _ 0, zero_add]

theorem det_sub_values (m : Mat) (c : ℕ) :
    (det_sub m c).values =
      (List.range' 1 (m.rows - 1)).flatMap fun i =>
        ((List.range m.cols).filter fun j => decide (j ≠ c)).map
          fun j => idx m (i * m.cols + j) := by
  show ((List.range' 1 (m.rows - 1)).flatMap fun i => (List.range m.cols).flatMap fun j =>
      if j ≠ c then [idx m (i * m.cols + j)] else []) = _
  exact flatMap_congr_mem _ _ _ fun i _ => flatMap_if_eq_filter_map _ _ _

theorem det_sub_idx (m : Mat) (c i j : ℕ) (hc : c < m.cols) (hi : i < m.rows - 1)
    (hj : j < m.cols - 1) :
    idx (det_sub m c) (i * (m.cols - 1) + j) =
      idx m ((i + 1) * m.cols + (if j < c then j else j + 1)) := by
  show (det_sub m c).values.getD (i * (m.cols - 1) + j) 0 = _
  rw [det_sub_values, range_filter_ne c m.cols hc]
  rw [flatMap_getD _ (m.cols - 1) _ i j (fun a _ => by simp) (by simpa using hi) hj]
  rw [getD_range' 1 (m.rows - 1) i hi, List.map_map]
  rw [getD_map_range _ _ (m.cols - 1) j hj]
  simp [Nat.add_comm 1 i]

theorem cof_minor_values (m : Mat) (r c : ℕ) (hr : r < m.rows) (hc : c < m.cols) :
    (cof_minor m r c).values =
      ((List.range (m.rows - 1)).map fun a => if a < r then a else a + 1).flatMap fun a =>
        ((List.range (m.cols - 1)).map fun b => if b < c then b else b + 1).map
          fun b => idx m (a * m.cols + b) := by
  show ((List.range m.rows).flatMap fun a => (List.range m.cols).flatMap fun b =>
      if b ≠ c ∧ a ≠ r then [idx m (a * m.cols + b)] else []) = _
  rw [flatMap_eq_filter_flatMap _ (fun a => decide (a ≠ r)) _ ?outernil]
  case outernil =>
    intro a _ ha
    have har : a = r := by simpa using ha
    subst har
    simp
  rw [range_filter_ne r m.rows hr, List.flatMap_map, List.flatMap_map]
  apply flatMap_congr_mem
  intro a ha
  have hanr : (if a < r then a else a + 1) ≠ r := by
    by_cases h : a < r <;> simp [h] <;> omega
  have hcond : ∀ b : ℕ, (b ≠ c ∧ (if a < r then a else a + 1) ≠ r) ↔ b ≠ c := by
    intro b
    simp [hanr]
  calc ((List.range m.cols).flatMap fun b =>
          if b ≠ c ∧ (if a < r then a else a + 1) ≠ r then
            [idx m ((if a < r then a else a + 1) * m.cols + b)]
          else [])
      = (List.range m.cols).flatMap fun b =>
          if b ≠ c then [idx m ((if a < r then a else a + 1) * m.cols + b)] else [] := by
        apply flatMap_congr_mem
        intro b _
        by_cases hb : b ≠ c <;> simp [hb, hanr]
    _ = ((List.range m.cols).filter fun b => decide (b ≠ c)).map
          fun b => idx m ((if a < r then a else a + 1) * m.cols + b) :=
        flatMap_if_eq_filter_map _ _ _
    _ = ((List.range (m.cols - 1)).map fun b => if b < c then b else b + 1).map
          fun b => idx m ((if a < r then a else a + 1) * m.cols + b) := by
        rw [range_filter_ne c m.cols hc]

theorem cof_minor_idx (m : Mat) (r c a b : ℕ) (hr : r < m.rows) (hc : c < m.cols)
    (ha : a < m.rows - 1) (hb : b < m.cols - 1) :
    idx (cof_minor m r c) (a * (m.cols - 1) + b) =
      idx m ((if a < r then a else a + 1) * m.cols + (if b < c then b else b + 1)) := by
  show (cof_minor m r c).values.getD (a * (m.cols - 1) + b) 0 = _
  rw [cof_minor_values m r c hr hc]
  rw [flatMap_getD _ (m.cols - 1) _ a b (fun x _ => by simp) (by simpa using ha) hb]
  rw [getD_map_range _ _ (m.rows - 1) a ha, List.map_map]
  rw [getD_map_range _ _ (m.cols - 1) b hb]
  rfl

theorem find_cofactor_idx (m : Mat) (i j : ℕ) (hi : i < m.rows) (hj : j < m.cols) :
    idx (find_cofactor m) (i * m.cols + j) =
      (-1 : ℚ) ^ (i + j) * get_determinant (cof_minor m i j) := by
  show ((List.range m.rows).flatMap fun a => (List.range m.cols).map fun b =>
      (-1 : ℚ) ^ (a + b) * get_determinant (cof_minor m a b)).getD (i * m.cols + j) 0 = _
  exact grid_idx m.rows m.cols _ i j hi hj

/-! ## Unfolding the determinant recursion -/

theorem get_determinant_one (m : Mat) (h : m.rows = 1) : get_determinant m = idx m 0 := by
  unfold get_determinant
  rw [if_pos h]

theorem get_determinant_ne_one (m : Mat) (h : m.rows ≠ 1) : get_determinant m = find_det m := by
  unfold get_determinant
  rw [if_neg h]

theorem find_det_two (m : Mat) (h : m.rows = 2) :
    find_det m = idx m 0 * idx m 3 - idx m 1 * idx m 2 := by
  unfold find_det
  rw [h]
  rw [show (2 : ℕ) = 1 + 1 from rfl, find_detF]
  rw [if_pos h]

theorem find_det_expand (m : Mat) (h : 3 ≤ m.rows) :
    find_det m =
      ((List.range m.cols).map
        fun c => (-1 : ℚ) ^ c * idx m c * find_det (det_sub m c)).sum := by
  have hr : m.rows = (m.rows - 1) + 1 := by omega
  unfold find_det
  rw [hr, find_detF, if_neg (by omega)]
  rw [foldl_add_eq_sum (fun c => (-1 : ℚ) ^ c * idx m c * find_detF (m.rows - 1) (det_sub m c))]
  rw [zero_add]
  rfl

/-! ## Claim theorems -/

/-- C1: for every square matrix, `get_determinant` returns the single
element when 1×1, `a00*a11 - a01*a10` when 2×2, and for `n > 2` the sum
over columns `c` of `(-1)^c * A[0,c] * det(minor)` where the minor
(`det_sub m c`, the buffer `find_det` builds) is the `(n-1)×(n-1)` matrix
obtained by deleting row 0 and column `c`. -/
theorem C1_determinant_cofactor_expansion (m : Mat) (_hsq : m.cols = m.rows)
    (_hpos : 1 ≤ m.rows) :
    (m.rows = 1 → get_determinant m = idx m 0) ∧
    (m.rows = 2 → get_determinant m = idx m 0 * idx m 3 - idx m 1 * idx m 2) ∧
    (2 < m.rows →
      (get_determinant m =
        ((List.range m.cols).map
          fun c => (-1 : ℚ) ^ c * idx m (0 * m.cols + c) * get_determinant (det_sub m c)).sum) ∧
      ∀ c, c < m.cols →
        (det_sub m c).rows = m.rows - 1 ∧ (det_sub m c).cols = m.cols - 1 ∧
        ∀ i j, i < m.rows - 1 → j < m.cols - 1 →
          idx (det_sub m c) (i * (m.cols - 1) + j) =
            idx m ((i + 1) * m.cols + (if j < c then j else j + 1))) := by
  refine ⟨get_determinant_one m, ?_, ?_⟩
  · intro h2
    rw [get_determinant_ne_one m (by omega), find_det_two m h2]
  · intro h3
    constructor
    · rw [get_determinant_ne_one m (by omega), find_det_expand m h3]
      apply congrArg
      apply List.map_congr_left
      intro c _
      have h0 : 0 * m.cols + c = c := by omega
      rw [h0, get_determinant_ne_one (det_sub m c) (by show m.rows - 1 ≠ 1; omega)]
    · intro c hc
      exact ⟨rfl, rfl, fun i j hi hj => det_sub_idx m c i j hc hi hj⟩

theorem C1_witness :
    get_determinant (⟨3, 3, [1, 2, 3, 4, 5, 6, 7, 8, 10]⟩ : Mat) =
      ((List.range 3).map
        fun c => (-1 : ℚ) ^ c * idx ⟨3, 3, [1, 2, 3, 4, 5, 6, 7, 8, 10]⟩ (0 * 3 + c) *
          get_determinant (det_sub ⟨3, 3, [1, 2, 3, 4, 5, 6, 7, 8, 10]⟩ c)).sum :=
  ((C1_determinant_cofactor_expansion ⟨3, 3, [1, 2, 3, 4, 5, 6, 7, 8, 10]⟩ rfl
    (by decide)).2.2 (by decide)).1

/-- C2: `get_inverse` fails with `SingularMatrix` exactly when the
determinant is `0` (it never divides silently); with nonzero determinant
it returns the matrix whose every cell is the corresponding adjoint cell
divided by the determinant. -/
theorem C2_inverse_adjoint_over_det (m : Mat) (_hsq : m.cols = m.rows) :
    (get_inverse m = .error .SingularMatrix ↔ get_determinant m = 0) ∧
    (get_determinant m ≠ 0 →
      ∃ invm, get_inverse m = .ok invm ∧ invm.rows = m.rows ∧ invm.cols = m.cols ∧
        ∀ i j, i < m.rows → j < m.cols →
          idx invm (i * m.cols + j) =
            idx (get_adjoint m) (i * (get_adjoint m).cols + j) / get_determinant m) := by
  constructor
  · constructor
    · intro he
      by_contra h
      simp only [get_inverse] at he
      rw [if_neg h] at he
      exact Except.noConfusion he
    · intro h
      simp only [get_inverse]
      rw [if_pos h]
  · intro h
    refine ⟨⟨m.rows, m.cols,
      (List.range m.rows).flatMap fun i => (List.range m.cols).map fun j =>
        idx (get_adjoint m) (i * (get_adjoint m).cols + j) / get_determinant m⟩,
      ?_, rfl, rfl, ?_⟩
    · simp only [get_inverse]
      rw [if_neg h]
    · intro i j hi hj
      exact grid_idx m.rows m.cols _ i j hi hj

theorem C2_witness : get_inverse (⟨2, 2, [1, 2, 2, 4]⟩ : Mat) = .error .SingularMatrix :=
  (C2_inverse_adjoint_over_det ⟨2, 2, [1, 2, 2, 4]⟩ rfl).1.mpr (by with_unfolding_all decide)

/-- C3 counterexample: a 2×3 matrix `A` and a 4×2 matrix `B` have
`A.cols ≠ B.rows`, yet `product` does not fail with `DimensionMismatch`:
because `B.cols = A.rows` it silently swaps the operands and succeeds
(and the core `get_product` itself performs no dimension check at all). -/
theorem C3_counterexample :
    (⟨2, 3, [1, 2, 3, 4, 5, 6]⟩ : Mat).cols ≠ (⟨4, 2, [1, 2, 3, 4, 5, 6, 7, 8]⟩ : Mat).rows ∧
    product ⟨2, 3, [1, 2, 3, 4, 5, 6]⟩ ⟨4, 2, [1, 2, 3, 4, 5, 6, 7, 8]⟩ ≠
      .error .DimensionMismatch := by
  with_unfolding_all decide

/-- C3 amended: the dimension check lives in the calling wrapper `product`,
not in the core `get_product` (which checks nothing): `product` fails with
`DimensionMismatch` exactly when neither `A.cols = B.rows` nor
`B.cols = A.rows` holds; when only the swapped order is compatible it
multiplies the swapped operands itself (reporting the swap); when
`A.cols = B.rows` it multiplies in the given order, and `get_product A B`
has dimensions `(A.rows, B.cols)` with cell `(k,i)` equal to
`Σ_j A[k,j] * B[j,i]`. -/
theorem C3_product_dimension_check (a b : Mat) :
    (product a b = .error .DimensionMismatch ↔ a.cols ≠ b.rows ∧ b.cols ≠ a.rows) ∧
    (a.cols = b.rows → product a b = .ok (false, get_product a b)) ∧
    (a.cols ≠ b.rows → b.cols = a.rows → product a b = .ok (true, get_product b a)) ∧
    (get_product a b).rows = a.rows ∧ (get_product a b).cols = b.cols ∧
    (∀ k i, k < a.rows → i < b.cols →
      idx (get_product a b) (k * b.cols + i) =
        ((List.range a.cols).map
          fun j => idx a (k * a.cols + j) * idx b (j * b.cols + i)).sum) := by
  refine ⟨?_, ?_, ?_, rfl, rfl, fun k i hk hi => get_product_idx a b k i hk hi⟩
  · unfold product
    by_cases h1 : a.cols = b.rows
    · simp [h1]
    · by_cases h2 : b.cols = a.rows
      · simp [h1, h2]
      · simp [h1, h2]
  · intro h1
    unfold product
    simp [h1]
  · intro h1 h2
    unfold product
    simp [h1, h2]

theorem C3_witness :
    product (⟨1, 2, [1, 2]⟩ : Mat) ⟨2, 1, [3, 4]⟩ =
      .ok (false, get_product ⟨1, 2, [1, 2]⟩ ⟨2, 1, [3, 4]⟩) :=
  (C3_product_dimension_check ⟨1, 2, [1, 2]⟩ ⟨2, 1, [3, 4]⟩).2.1 rfl

/-- C5: for a square matrix, `get_adjoint` is the 1×1 matrix `[1]` when the
input is 1×1, and otherwise the transpose of the cofactor matrix, whose
dimensions equal the input's and whose cell `(i,j)` is `(-1)^(i+j)` times
the determinant of the minor (`cof_minor m i j`) obtained by deleting row
`i` and column `j`. -/
theorem C5_adjoint_transpose_of_cofactors (m : Mat) (hsq : m.cols = m.rows)
    (_hpos : 1 ≤ m.rows) :
    (m.rows = 1 → get_adjoint m = ⟨1, 1, [1]⟩) ∧
    (1 < m.rows →
      get_adjoint m = get_transpose (find_cofactor m) ∧
      (find_cofactor m).rows = m.rows ∧ (find_cofactor m).cols = m.cols ∧
      ∀ i j, i < m.rows → j < m.cols →
        (idx (find_cofactor m) (i * m.cols + j) =
          (-1 : ℚ) ^ (i + j) * get_determinant (cof_minor m i j)) ∧
        (cof_minor m i j).rows = m.rows - 1 ∧ (cof_minor m i j).cols = m.cols - 1 ∧
        ∀ a b, a < m.rows - 1 → b < m.cols - 1 →
          idx (cof_minor m i j) (a * (m.cols - 1) + b) =
            idx m ((if a < i then a else a + 1) * m.cols + (if b < j then b else b + 1))) := by
  constructor
  · intro h1
    simp only [get_adjoint, if_pos h1, Mat.mk.injEq]
    exact ⟨h1, hsq.trans h1, trivial⟩
  · intro h2
    refine ⟨?_, rfl, rfl, ?_⟩
    · simp only [get_adjoint, if_neg (by omega : ¬ m.rows = 1)]
    · intro i j hi hj
      exact ⟨find_cofactor_idx m i j hi hj, rfl, rfl,
        fun a b ha hb => cof_minor_idx m i j a b hi hj ha hb⟩

theorem C5_witness :
    idx (find_cofactor (⟨2, 2, [1, 2, 3, 4]⟩ : Mat)) (0 * 2 + 1) =
      (-1 : ℚ) ^ (0 + 1) * get_determinant (cof_minor (⟨2, 2, [1, 2, 3, 4]⟩ : Mat) 0 1) :=
  (((C5_adjoint_transpose_of_cofactors ⟨2, 2, [1, 2, 3, 4]⟩ rfl (by decide)).2
    (by decide)).2.2.2 0 1 (by decide) (by decide)).1

/-- C6: `get_transpose` never fails (it is a total function), its result
has dimensions `(cols, rows)` and satisfies `result[j,i] = A[i,j]`, and
applying it twice restores every cell. -/
theorem C6_transpose_involution (m : Mat) :
    (get_transpose m).rows = m.cols ∧ (get_transpose m).cols = m.rows ∧
    (∀ i j, i < m.rows → j < m.cols →
      idx (get_transpose m) (j * m.rows + i) = idx m (i * m.cols + j)) ∧
    (∀ i j, i < m.rows → j < m.cols →
      idx (get_transpose (get_transpose m)) (i * m.cols + j) = idx m (i * m.cols + j)) :=
  ⟨rfl, rfl, fun i j hi hj => get_transpose_idx m i j hi hj,
    fun i j hi hj =>
      (get_transpose_idx (get_transpose m) j i hj hi).trans (get_transpose_idx m i j hi hj)⟩

theorem C6_witness :
    idx (get_transpose (get_transpose (⟨2, 3, [1, 2, 3, 4, 5, 6]⟩ : Mat))) (0 * 3 + 1) =
      idx (⟨2, 3, [1, 2, 3, 4, 5, 6]⟩ : Mat) (0 * 3 + 1) :=
  (C6_transpose_involution ⟨2, 3, [1, 2, 3, 4, 5, 6]⟩).2.2.2 0 1 (by decide) (by decide)

/-! ## Bridge: the C determinant/adjoint/inverse against Mathlib's -/

theorem succAbove_val (n : ℕ) (p : Fin (n + 1)) (i : Fin n) :
    (p.succAbove i).val = if i.val < p.val then i.val else i.val + 1 := by
  rcases Nat.lt_or_ge i.val p.val with h | h
  · rw [Fin.succAbove_of_castSucc_lt p i (by simpa [Fin.lt_def] using h)]
    simp [h]
  · rw [Fin.succAbove_of_le_castSucc p i (by simpa [Fin.le_def] using h)]
    have hn : ¬ i.val < p.val := by omega
    simp [hn]

theorem toM_det_sub (m : Mat) (s : ℕ) (hr : m.rows = s + 2) (hc : m.cols = s + 2)
    (c : Fin (s + 2)) :
    toM (det_sub m c.val) (s + 1) = (toM m (s + 2)).submatrix Fin.succ c.succAbove := by
  ext i j
  rw [Matrix.submatrix_apply]
  show idx (det_sub m c.val) (i.val * (m.cols - 1) + j.val) =
    idx m ((Fin.succ i).val * m.cols + (c.succAbove j).val)
  rw [det_sub_idx m c.val i.val j.val (by omega) (by omega) (by omega)]
  rw [succAbove_val, Fin.val_succ]

theorem toM_cof_minor (m : Mat) (s : ℕ) (hr : m.rows = s + 2) (hc : m.cols = s + 2)
    (r c : Fin (s + 2)) :
    toM (cof_minor m r.val c.val) (s + 1) =
      (toM m (s + 2)).submatrix r.succAbove c.succAbove := by
  ext a b
  rw [Matrix.submatrix_apply]
  show idx (cof_minor m r.val c.val) (a.val * (m.cols - 1) + b.val) =
    idx m ((r.succAbove a).val * m.cols + (c.succAbove b).val)
  rw [cof_minor_idx m r.val c.val a.val b.val (by omega) (by omega) (by omega) (by omega)]
  rw [succAbove_val, succAbove_val]

/-- The C determinant of an `(n+1) × (n+1)` matrix is Mathlib's. -/
theorem det_toM : ∀ n : ℕ, ∀ m : Mat, m.rows = n + 1 → m.cols = n + 1 →
    get_determinant m = (toM m (n + 1)).det := by
  intro n
  induction n using Nat.strong_induction_on with
  | _ n ih =>
    match n with
    | 0 =>
      intro m hr hc
      rw [get_determinant_one m hr, Matrix.det_fin_one]
      simp [toM]
    | 1 =>
      intro m hr hc
      rw [get_determinant_ne_one m (by omega), find_det_two m hr, Matrix.det_fin_two]
      simp [toM, hc]
    | s + 2 =>
      intro m hr hc
      rw [get_determinant_ne_one m (by omega), find_det_expand m (by omega)]
      rw [Matrix.det_succ_row_zero]
      rw [sum_map_range _ m.cols, hc]
      rw [← Fin.sum_univ_eq_sum_range
        (fun c => (-1 : ℚ) ^ c * idx m c * find_det (det_sub m c)) (s + 2 + 1)]
      apply Finset.sum_congr rfl
      intro j _
      have hjm : (j : ℕ) < m.cols := by omega
      have hA0 : toM m (s + 2 + 1) 0 j = idx m (j : ℕ) := by
        simp [toM]
      have hsub : find_det (det_sub m (j : ℕ)) = ((toM m (s + 2 + 1)).submatrix
          Fin.succ (Fin.succAbove j)).det := by
        have h1 : find_det (det_sub m (j : ℕ)) = get_determinant (det_sub m (j : ℕ)) :=
          (get_determinant_ne_one (det_sub m (j : ℕ)) (by show ¬ m.rows - 1 = 1; omega)).symm
        have h2 := ih (s + 1) (by omega) (det_sub m (j : ℕ))
          (by show m.rows - 1 = s + 2; omega) (by show m.cols - 1 = s + 2; omega)
        have h3 := toM_det_sub m (s + 1) (by omega) (by omega) j
        rw [h1, h2, h3]
      rw [hA0, hsub]

/-- The C adjoint of an `(n+1) × (n+1)` matrix is Mathlib's adjugate. -/
theorem toM_adjoint (m : Mat) (n : ℕ) (hr : m.rows = n + 1) (hc : m.cols = n + 1) :
    toM (get_adjoint m) (n + 1) = (toM m (n + 1)).adjugate := by
  match n with
  | 0 =>
    ext i j
    fin_cases i
    fin_cases j
    rw [Matrix.adjugate_fin_one]
    show idx (get_adjoint m) (0 * (get_adjoint m).cols + 0) = _
    rw [show get_adjoint m = ⟨m.rows, m.cols, [1]⟩ from by simp [get_adjoint, hr]]
    simp [idx, Matrix.one_apply]
  | s + 1 =>
    ext i j
    have hadj : get_adjoint m = get_transpose (find_cofactor m) := by
      simp [get_adjoint, show ¬ m.rows = 1 by omega]
    show idx (get_adjoint m) (i.val * (get_adjoint m).cols + j.val) = _
    rw [hadj]
    show idx (get_transpose (find_cofactor m)) (i.val * (find_cofactor m).rows + j.val) = _
    rw [get_transpose_idx (find_cofactor m) j.val i.val (by show j.val < m.rows; omega)
      (by show i.val < m.cols; omega)]
    show idx (find_cofactor m) (j.val * m.cols + i.val) = _
    rw [find_cofactor_idx m j.val i.val (by omega) (by omega)]
    rw [Matrix.adjugate_fin_succ_eq_det_submatrix]
    have hdet : get_determinant (cof_minor m j.val i.val) =
        ((toM m (s + 1 + 1)).submatrix (Fin.succAbove j) (Fin.succAbove i)).det := by
      rw [det_toM s (cof_minor m j.val i.val) (by show m.rows - 1 = s + 1; omega)
        (by show m.cols - 1 = s + 1; omega)]
      rw [toM_cof_minor m s (by omega) (by omega) j i]
    rw [hdet]

/-- With nonzero determinant, `get_inverse` succeeds, on this explicit
matrix. -/
theorem get_inverse_ok (m : Mat) (hd : get_determinant m ≠ 0) :
    get_inverse m = .ok ⟨m.rows, m.cols,
      (List.range m.rows).flatMap fun i => (List.range m.cols).map fun j =>
        idx (get_adjoint m) (i * (get_adjoint m).cols + j) / get_determinant m⟩ := by
  simp only [get_inverse]
  rw [if_neg hd]

/-- The inverse payload, as a Mathlib matrix, is `det⁻¹ • adjugate`. -/
theorem toM_inverse_payload (m : Mat) (n : ℕ) (hr : m.rows = n + 1) (hc : m.cols = n + 1) :
    toM (⟨m.rows, m.cols,
        (List.range m.rows).flatMap fun i => (List.range m.cols).map fun j =>
          idx (get_adjoint m) (i * (get_adjoint m).cols + j) / get_determinant m⟩ : Mat)
      (n + 1) = (get_determinant m)⁻¹ • (toM m (n + 1)).adjugate := by
  have hadjc : (get_adjoint m).cols = n + 1 := by
    by_cases h : m.rows = 1
    · simp [get_adjoint, h, hc]
    · simp [get_adjoint, h]
      exact hr
  ext i j
  show ((List.range m.rows).flatMap fun a => (List.range m.cols).map fun b =>
    idx (get_adjoint m) (a * (get_adjoint m).cols + b) / get_determinant m).getD
      (i.val * m.cols + j.val) 0 = _
  rw [show (i.val * m.cols + j.val) = (i.val * m.cols + j.val) from rfl]
  rw [grid_idx m.rows m.cols _ i.val j.val (by omega) (by omega)]
  have hidx : idx (get_adjoint m) (i.val * (get_adjoint m).cols + j.val) =
      toM (get_adjoint m) (n + 1) i j := by
    show _ = idx (get_adjoint m) (i.val * (get_adjoint m).cols + j.val)
    rfl
  rw [hidx, toM_adjoint m n hr hc, Matrix.smul_apply, smul_eq_mul, div_eq_inv_mul]

/-- The C product of two `n × n` matrices is Mathlib's. -/
theorem toM_product (m1 m2 : Mat) (n : ℕ) (h1r : m1.rows = n) (h1c : m1.cols = n)
    (h2r : m2.rows = n) (h2c : m2.cols = n) :
    toM (get_product m1 m2) n = toM m1 n * toM m2 n := by
  ext k i
  show idx (get_product m1 m2) (k.val * m2.cols + i.val) = _
  rw [get_product_idx m1 m2 k.val i.val (by omega) (by omega)]
  rw [Matrix.mul_apply, sum_map_range _ m1.cols, h1c]
  rw [← Fin.sum_univ_eq_sum_range
    (fun j => idx m1 (k.val * n + j) * idx m2 (j * m2.cols + i.val)) n]
  apply Finset.sum_congr rfl
  intro j _
  simp [toM, h1c]

/-- C4: for every square matrix with nonzero determinant,
`get_product m (inverse of m)` is exactly the identity matrix (hence in
particular within the `1e-9` tolerance the spec allows: off-diagonal cells
are exactly `0` and diagonal cells exactly `1` — the model computes with
exact rationals in place of IEEE doubles). -/
theorem C4_product_with_inverse_is_identity (m : Mat) (hsq : m.cols = m.rows)
    (hpos : 1 ≤ m.rows) (hd : get_determinant m ≠ 0) :
    ∃ invm, get_inverse m = .ok invm ∧
      ∀ i j, i < m.rows → j < m.cols →
        idx (get_product m invm) (i * m.cols + j) = if i = j then 1 else 0 := by
  obtain ⟨n, hr⟩ : ∃ n, m.rows = n + 1 := ⟨m.rows - 1, by omega⟩
  have hc : m.cols = n + 1 := by omega
  refine ⟨⟨m.rows, m.cols,
    (List.range m.rows).flatMap fun a => (List.range m.cols).map fun b =>
      idx (get_adjoint m) (a * (get_adjoint m).cols + b) / get_determinant m⟩,
    get_inverse_ok m hd, ?_⟩
  set P : Mat := ⟨m.rows, m.cols,
    (List.range m.rows).flatMap fun a => (List.range m.cols).map fun b =>
      idx (get_adjoint m) (a * (get_adjoint m).cols + b) / get_determinant m⟩ with hP
  intro i j hi hj
  have hdet : (toM m (n + 1)).det ≠ 0 := by
    rw [← det_toM n m hr hc]
    exact hd
  have h2r : P.rows = n + 1 := hr
  have h2c : P.cols = n + 1 := hc
  have hmul : toM (get_product m P) (n + 1) = 1 := by
    rw [toM_product m P (n + 1) hr hc h2r h2c]
    rw [hP, toM_inverse_payload m n hr hc]
    rw [det_toM n m hr hc]
    rw [Matrix.mul_smul, Matrix.mul_adjugate, smul_smul,
      inv_mul_cancel₀ hdet, one_smul]
  have happ := congrFun (congrFun hmul ⟨i, by omega⟩) ⟨j, by omega⟩
  have hL : toM (get_product m P) (n + 1) ⟨i, by omega⟩ ⟨j, by omega⟩ =
      idx (get_product m P) (i * m.cols + j) := rfl
  rw [hL] at happ
  rw [happ, Matrix.one_apply]
  simp [Fin.ext_iff]

theorem C4_witness :
    ∃ invm, get_inverse (⟨2, 2, [1, 2, 3, 4]⟩ : Mat) = .ok invm ∧
      ∀ i j, i < (⟨2, 2, [1, 2, 3, 4]⟩ : Mat).rows → j < (⟨2, 2, [1, 2, 3, 4]⟩ : Mat).cols →
        idx (get_product ⟨2, 2, [1, 2, 3, 4]⟩ invm) (i * 2 + j) = if i = j then 1 else 0 :=
  C4_product_with_inverse_is_identity ⟨2, 2, [1, 2, 3, 4]⟩ rfl (by decide)
    (by with_unfolding_all decide)

/-! ## Parser claim theorems -/

/-- C7: parsing the source text `"matrix 2 2\n1 2\n3 4\nend\n"` succeeds
and yields `rows = 2`, `cols = 2` and row-major values `[1, 2, 3, 4]`. -/
theorem C7_parse_two_by_two :
    read_matrix "matrix 2 2\n1 2\n3 4\nend\n".data = .ok ⟨2, 2, [1, 2, 3, 4]⟩ := by
  with_unfolding_all decide

/-- C10: an element token is accepted exactly when `strtod` consumes it
fully, so `inf`, `nan` and the hexadecimal float `0x1p3` are accepted
element values (beyond plain decimal/exponential notation).  `0x1p3`
denotes `8`; IEEE infinity and NaN fall outside the rational value model,
which records `0` for them — their *acceptance* is the claim. -/
theorem C10_strtod_decides_elements :
    read_matrix "matrix 1 3\ninf nan 0x1p3\nend\n".data = .ok ⟨1, 3, [0, 0, 8]⟩ ∧
    ∀ (t : String) (c : Ctx), (∃ v, get_double t c = .ok v) ↔
      (strtodParse t.data).1 = t.data.length := by
  constructor
  · with_unfolding_all decide
  · intro t c
    constructor
    · intro ⟨v, hv⟩
      by_contra hne
      simp only [get_double] at hv
      rw [if_pos hne] at hv
      exact Except.noConfusion hv
    · intro heq
      refine ⟨(strtodParse t.data).2, ?_⟩
      simp only [get_double]
      rw [if_neg (by simpa using heq)]

/-- C9 counterexample: the source `"hello\n"` violates the format (first
significant token is not `matrix`); the code reports line 1 and token
`hello` but an empty description — a diagnostic with no reason, refuting
the claim that every format violation carries a non-empty description. -/
theorem C9_counterexample :
    read_matrix "hello\n".data = .error (.invalidFile 1 (some "hello") "") := by
  with_unfolding_all decide

theorem read_lineF_err : ∀ (fuel : ℕ) (c : Ctx) (l : ℕ) (t : Option String) (s : String),
    read_lineF fuel c = .error (.invalidFile l t s) → s = "" := by
  intro fuel
  induction fuel with
  | zero =>
    intro c l t s h
    simp only [read_lineF, Except.error.injEq, Err.invalidFile.injEq] at h
    exact h.2.2.symm
  | succ fuel ih =>
    intro c l t s h
    simp only [read_lineF] at h
    split at h
    · simp only [Except.error.injEq, Err.invalidFile.injEq] at h
      exact h.2.2.symm
    · split at h
      · exact ih _ _ _ _ h
      · split at h
        · exact ih _ _ _ _ h
        · exact Except.noConfusion h

theorem read_line_err (c : Ctx) (l : ℕ) (t : Option String) (s : String)
    (h : read_line c = .error (.invalidFile l t s)) : s = "" :=
  read_lineF_err _ c l t s h

theorem get_int_err (c : Ctx) (l : ℕ) (t : Option String) (s : String)
    (h : get_int c = .error (.invalidFile l t s)) : s ∈ msgSet := by
  simp only [get_int] at h
  split at h
  · simp at h
  · split at h
    · simp only [errInvalid, Except.error.injEq, Err.invalidFile.injEq] at h
      rw [← h.2.2]
      decide
    · split at h
      · simp only [errInvalid, Except.error.injEq, Err.invalidFile.injEq] at h
        rw [← h.2.2]
        decide
      · exact Except.noConfusion h

theorem get_double_err (tk : String) (c : Ctx) (l : ℕ) (t : Option String) (s : String)
    (h : get_double tk c = .error (.invalidFile l t s)) : s ∈ msgSet := by
  simp only [get_double] at h
  split at h
  · simp only [errInvalid, Except.error.injEq, Err.invalidFile.injEq] at h
    rw [← h.2.2]
    decide
  · exact Except.noConfusion h

theorem read_rows_cols_err (c : Ctx) (l : ℕ) (t : Option String) (s : String)
    (h : read_rows_cols c = .error (.invalidFile l t s)) : s ∈ msgSet := by
  simp only [read_rows_cols] at h
  split at h
  · simp at h
  · split at h
    · simp only [errInvalid, Except.error.injEq, Err.invalidFile.injEq] at h
      rw [← h.2.2]
      decide
    · split at h
      next e heq =>
        injection h with he
        subst he
        exact get_int_err _ l t s heq
      next r heq =>
        split at h
        next e heq2 =>
          injection h with he
          subst he
          exact get_int_err _ l t s heq2
        next cl heq2 =>
          split at h
          · split at h
            · simp only [errInvalid, Except.error.injEq, Err.invalidFile.injEq] at h
              rw [← h.2.2]
              decide
            · exact Except.noConfusion h
          · exact Except.noConfusion h

theorem read_cells_err : ∀ (n : ℕ) (c : Ctx) (l : ℕ) (t : Option String) (s : String),
    read_cells n c = .error (.invalidFile l t s) → s ∈ msgSet := by
  intro n
  induction n with
  | zero =>
    intro c l t s h
    exact Except.noConfusion h
  | succ n ih =>
    intro c l t s h
    simp only [read_cells] at h
    split at h
    · simp only [errInvalid, Except.error.injEq, Err.invalidFile.injEq] at h
      rw [← h.2.2]
      decide
    · split at h
      · simp only [errInvalid, Except.error.injEq, Err.invalidFile.injEq] at h
        rw [← h.2.2]
        decide
      · split at h
        next e heq =>
          injection h with he
          subst he
          exact get_double_err _ _ l t s heq
        next v heq =>
          split at h
          next e heq2 =>
            injection h with he
            subst he
            exact ih _ l t s heq2
          next pr heq2 => exact Except.noConfusion h

theorem read_array_err : ∀ (i cols : ℕ) (c : Ctx) (l : ℕ) (t : Option String) (s : String),
    read_array i cols c = .error (.invalidFile l t s) → s ∈ msgSet := by
  intro i
  induction i with
  | zero =>
    intro cols c l t s h
    exact Except.noConfusion h
  | succ i ih =>
    intro cols c l t s h
    simp only [read_array] at h
    split at h
    next e heq =>
      injection h with he
      subst he
      rw [read_line_err _ _ _ _ heq]
      decide
    next c1 heq =>
      split at h
      next e2 heq2 =>
        injection h with he
        subst he
        exact read_cells_err cols c1 l t s heq2
      next pr heq2 =>
        split at h
        · split at h
          next e3 heq3 =>
            injection h with he
            subst he
            exact ih cols pr.2 l t s heq3
          next pr2 heq3 => exact Except.noConfusion h
        · simp only [errInvalid, Except.error.injEq, Err.invalidFile.injEq] at h
          rw [← h.2.2]
          decide

theorem read_file_end_err (c : Ctx) (l : ℕ) (t : Option String) (s : String)
    (h : read_file_end c = .error (.invalidFile l t s)) : s ∈ msgSet := by
  simp only [read_file_end] at h
  split at h
  next e heq =>
    injection h with he
    subst he
    rw [read_line_err _ _ _ _ heq]
    decide
  next c1 heq =>
    split at h
    · simp only [errInvalid, Except.error.injEq, Err.invalidFile.injEq] at h
      rw [← h.2.2]
      decide
    · split at h
      · exact Except.noConfusion h
      · simp only [errInvalid, Except.error.injEq, Err.invalidFile.injEq] at h
        rw [← h.2.2]
        decide

theorem read_matrix_body_err (c1 : Ctx) (l : ℕ) (t : Option String) (s : String)
    (h : read_matrix_body c1 = .error (.invalidFile l t s)) : s ∈ msgSet := by
  simp only [read_matrix_body] at h
  split at h
  next e2 heq2 =>
    injection h with he
    subst he
    exact read_rows_cols_err c1 l t s heq2
  next rc heq2 =>
    split at h
    next e3 heq3 =>
      injection h with he
      subst he
      exact read_array_err _ _ _ l t s heq3
    next pr heq3 =>
      split at h
      next e4 heq4 =>
        injection h with he
        subst he
        exact read_file_end_err _ l t s heq4
      next c4 heq4 => exact Except.noConfusion h

theorem read_matrix_err_msg_mem (src : List Char) (l : ℕ) (tok : Option String)
    (msg : String) (h : read_matrix src = .error (.invalidFile l tok msg)) : msg ∈ msgSet := by
  simp only [read_matrix] at h
  split at h
  next e heq =>
    injection h with he
    subst he
    rw [read_line_err _ _ _ _ heq]
    decide
  next c1 heq => exact read_matrix_body_err c1 l tok msg h

theorem get_int_ne (c : Ctx) (l : ℕ) (t : Option String) (s : String)
    (h : get_int c = .error (.invalidFile l t s)) : s ≠ "" := by
  simp only [get_int] at h
  split at h
  · simp at h
  · split at h
    · simp only [errInvalid, Except.error.injEq, Err.invalidFile.injEq] at h
      rw [← h.2.2]
      decide
    · split at h
      · simp only [errInvalid, Except.error.injEq, Err.invalidFile.injEq] at h
        rw [← h.2.2]
        decide
      · exact Except.noConfusion h

theorem get_double_ne (tk : String) (c : Ctx) (l : ℕ) (t : Option String) (s : String)
    (h : get_double tk c = .error (.invalidFile l t s)) : s ≠ "" := by
  simp only [get_double] at h
  split at h
  · simp only [errInvalid, Except.error.injEq, Err.invalidFile.injEq] at h
    rw [← h.2.2]
    decide
  · exact Except.noConfusion h

theorem read_cells_ne : ∀ (n : ℕ) (c : Ctx) (l : ℕ) (t : Option String) (s : String),
    read_cells n c = .error (.invalidFile l t s) → s ≠ "" := by
  intro n
  induction n with
  | zero =>
    intro c l t s h
    exact Except.noConfusion h
  | succ n ih =>
    intro c l t s h
    simp only [read_cells] at h
    split at h
    · simp only [errInvalid, Except.error.injEq, Err.invalidFile.injEq] at h
      rw [← h.2.2]
      decide
    · split at h
      · simp only [errInvalid, Except.error.injEq, Err.invalidFile.injEq] at h
        rw [← h.2.2]
        decide
      · split at h
        next e heq =>
          injection h with he
          subst he
          exact get_double_ne _ _ l t s heq
        next v heq =>
          split at h
          next e heq2 =>
            injection h with he
            subst he
            exact ih _ l t s heq2
          next pr heq2 => exact Except.noConfusion h

/-- The header check's description is empty exactly when the first token
is not `matrix`; then the diagnostic reports that token and the current
line. -/
theorem read_rows_cols_empty_iff (c : Ctx) (l : ℕ) (t : Option String) (s : String)
    (h : read_rows_cols c = .error (.invalidFile l t s)) :
    s = "" ↔ ∃ tk, c.token = some tk ∧ tk ≠ "matrix" ∧ t = some tk ∧ l = c.line_number := by
  simp only [read_rows_cols] at h
  split at h
  next heq => simp at h
  next tk0 heq =>
    split at h
    next htk =>
      simp only [errInvalid, Except.error.injEq, Err.invalidFile.injEq] at h
      obtain ⟨hl, ht, hs⟩ := h
      constructor
      · intro _
        refine ⟨tk0, heq, htk, ?_, hl.symm⟩
        rw [← ht, heq]
      · intro _
        exact hs.symm
    next htk =>
      have htkm : tk0 = "matrix" := not_not.mp htk
      have hrhs : ¬ ∃ tk, c.token = some tk ∧ tk ≠ "matrix" ∧ t = some tk ∧
          l = c.line_number := by
        rintro ⟨tk, htok, hne, _, _⟩
        rw [heq] at htok
        injection htok with he2
        exact hne (he2 ▸ htkm)
      have hsne : s ≠ "" := by
        split at h
        next e heq2 =>
          injection h with he
          subst he
          exact get_int_ne _ l t s heq2
        next r heq2 =>
          split at h
          next e heq3 =>
            injection h with he
            subst he
            exact get_int_ne _ l t s heq3
          next cl heq3 =>
            split at h
            · split at h
              · simp only [errInvalid, Except.error.injEq, Err.invalidFile.injEq] at h
                rw [← h.2.2]
                decide
              · exact Except.noConfusion h
            · exact Except.noConfusion h
      constructor
      · intro hs0
        exact absurd hs0 hsne
      · intro hex
        exact absurd hex hrhs

/-- An empty-description failure of `read_file_end` can only be its
`read_line` call failing (end of input): its own checks carry non-empty
messages. -/
theorem read_file_end_empty_from_line (c : Ctx) (l : ℕ) (t : Option String)
    (h : read_file_end c = .error (.invalidFile l t "")) :
    read_line c = .error (.invalidFile l t "") := by
  simp only [read_file_end] at h
  split at h
  next e heq =>
    injection h with he
    subst he
    exact heq
  next c1 heq =>
    split at h
    · simp only [errInvalid, Except.error.injEq, Err.invalidFile.injEq] at h
      exact absurd h.2.2 (by decide)
    · split at h
      · exact Except.noConfusion h
      · simp only [errInvalid, Except.error.injEq, Err.invalidFile.injEq] at h
        exact absurd h.2.2 (by decide)

/-- An empty-description failure of `read_array` can only be one of its
`read_line` calls failing (end of input), at the start of row `j` of the
loop; its own checks and `read_cells` carry non-empty messages. -/
theorem read_array_empty_from_line : ∀ (i cols : ℕ) (c : Ctx) (l : ℕ) (t : Option String),
    read_array i cols c = .error (.invalidFile l t "") →
    ∃ j c2, j < i ∧ rows_iter cols j c = some c2 ∧
      read_line c2 = .error (.invalidFile l t "") := by
  intro i
  induction i with
  | zero =>
    intro cols c l t h
    exact Except.noConfusion h
  | succ i ih =>
    intro cols c l t h
    simp only [read_array] at h
    split at h
    next e heq =>
      injection h with he
      subst he
      exact ⟨0, c, by omega, rfl, heq⟩
    next c1 heq =>
      split at h
      next e2 heq2 =>
        injection h with he
        subst he
        exact absurd rfl (read_cells_ne cols c1 l t "" heq2)
      next pr heq2 =>
        split at h
        next htr =>
          split at h
          next e3 heq3 =>
            injection h with he
            subst he
            obtain ⟨j, c2, hj, hit, hrl⟩ := ih cols pr.2 l t heq3
            refine ⟨j + 1, c2, by omega, ?_, hrl⟩
            simp only [rows_iter, heq, heq2]
            rw [if_pos htr]
            exact hit
          next pr2 heq3 => exact Except.noConfusion h
        next htr =>
          simp only [errInvalid, Except.error.injEq, Err.invalidFile.injEq] at h
          exact absurd h.2.2 (by decide)

/-- Provenance of an empty-description parse failure: it is either the
missing-`matrix` header violation (with the offending first token and its
line reported), or a failed line read — end of input — at one of the
parse's line-reading points: the first significant line, the start of a
row of `read_array`'s loop, or the terminator line. -/
theorem read_matrix_empty_kinds (src : List Char) (l : ℕ) (t : Option String)
    (h : read_matrix src = .error (.invalidFile l t "")) :
    (∃ c1 tk, read_line ⟨src, 0, [], none⟩ = .ok c1 ∧ c1.token = some tk ∧
      tk ≠ "matrix" ∧ t = some tk ∧ l = c1.line_number) ∨
    read_line ⟨src, 0, [], none⟩ = .error (.invalidFile l t "") ∨
    (∃ c1 rc, read_line ⟨src, 0, [], none⟩ = .ok c1 ∧ read_rows_cols c1 = .ok rc ∧
      ((∃ j c2, j < rc.1.toNat ∧ rows_iter rc.2.1.toNat j rc.2.2 = some c2 ∧
          read_line c2 = .error (.invalidFile l t "")) ∨
       (∃ pr, read_array rc.1.toNat rc.2.1.toNat rc.2.2 = .ok pr ∧
          read_line pr.2 = .error (.invalidFile l t "")))) := by
  simp only [read_matrix] at h
  split at h
  next e heq =>
    injection h with he
    subst he
    exact .inr (.inl heq)
  next c1 heq =>
    simp only [read_matrix_body] at h
    split at h
    next e2 heq2 =>
      injection h with he
      subst he
      obtain ⟨tk, htok, hne, ht, hl⟩ := (read_rows_cols_empty_iff c1 l t "" heq2).mp rfl
      exact .inl ⟨c1, tk, heq, htok, hne, ht, hl⟩
    next rc heq2 =>
      split at h
      next e3 heq3 =>
        injection h with he
        subst he
        exact .inr (.inr ⟨c1, rc, heq, heq2,
          .inl (read_array_empty_from_line _ _ _ l t heq3)⟩)
      next pr heq3 =>
        split at h
        next e4 heq4 =>
          injection h with he
          subst he
          exact .inr (.inr ⟨c1, rc, heq, heq2,
            .inr ⟨pr, heq3, read_file_end_empty_from_line _ l t heq4⟩⟩)
        next c4 heq4 => exact Except.noConfusion h

/-- C9 amended: every diagnosed format violation carries the parser's
current line number and most recent token (structurally: `invalidFile`
always carries both), with a description drawn from the fixed rule
messages of `msgSet`.  The description is empty for exactly two
violations and non-empty for all others: a failed line read — input
ending where another line was required — always reports an empty
description, and any empty-description failure of the whole parse arose
either from such a failed line read at one of the parse's line-reading
points or from the header check rejecting a first significant token
other than `matrix` (which reports that token and its line); the header
check's description is empty exactly in that case, and the
rows/cols-number, element, column-count/row-count and trailing-content
checks always carry non-empty descriptions.  (A `matrix` line missing
its rows or cols token is not diagnosed at all: the C code hands
`strtol` a null pointer, modelled as `Err.crash`.) -/
theorem C9_empty_description_exactly_two_kinds (src : List Char) (c : Ctx) (tk : String)
    (l : ℕ) (t : Option String) (s : String) :
    (read_matrix src = .error (.invalidFile l t s) → s ∈ msgSet) ∧
    (read_line c = .error (.invalidFile l t s) → s = "") ∧
    (read_rows_cols c = .error (.invalidFile l t s) →
      (s = "" ↔ ∃ tk2, c.token = some tk2 ∧ tk2 ≠ "matrix" ∧ t = some tk2 ∧
        l = c.line_number)) ∧
    (get_int c = .error (.invalidFile l t s) → s ≠ "") ∧
    (get_double tk c = .error (.invalidFile l t s) → s ≠ "") ∧
    (∀ n, read_cells n c = .error (.invalidFile l t s) → s ≠ "") ∧
    (read_matrix src = .error (.invalidFile l t "") →
      (∃ c1 tk2, read_line ⟨src, 0, [], none⟩ = .ok c1 ∧ c1.token = some tk2 ∧
        tk2 ≠ "matrix" ∧ t = some tk2 ∧ l = c1.line_number) ∨
      read_line ⟨src, 0, [], none⟩ = .error (.invalidFile l t "") ∨
      (∃ c1 rc, read_line ⟨src, 0, [], none⟩ = .ok c1 ∧ read_rows_cols c1 = .ok rc ∧
        ((∃ j c2, j < rc.1.toNat ∧ rows_iter rc.2.1.toNat j rc.2.2 = some c2 ∧
            read_line c2 = .error (.invalidFile l t "")) ∨
         (∃ pr, read_array rc.1.toNat rc.2.1.toNat rc.2.2 = .ok pr ∧
            read_line pr.2 = .error (.invalidFile l t ""))))) :=
  ⟨fun h => read_matrix_err_msg_mem src l t s h,
   fun h => read_line_err c l t s h,
   fun h => read_rows_cols_empty_iff c l t s h,
   fun h => get_int_ne c l t s h,
   fun h => get_double_ne tk c l t s h,
   fun n h => read_cells_ne n c l t s h,
   fun h => read_matrix_empty_kinds src l t h⟩

theorem C9_witness :
    ("Rows or columns of the matrix are bigger than the maximum value allowed." ∈ msgSet) ∧
    ((∃ c1 tk2, read_line ⟨"hello\n".data, 0, [], none⟩ = .ok c1 ∧ c1.token = some tk2 ∧
        tk2 ≠ "matrix" ∧ some "hello" = some tk2 ∧ 1 = c1.line_number) ∨
      read_line ⟨"hello\n".data, 0, [], none⟩ = .error (.invalidFile 1 (some "hello") "") ∨
      (∃ c1 rc, read_line ⟨"hello\n".data, 0, [], none⟩ = .ok c1 ∧
        read_rows_cols c1 = .ok rc ∧
        ((∃ j c2, j < rc.1.toNat ∧ rows_iter rc.2.1.toNat j rc.2.2 = some c2 ∧
            read_line c2 = .error (.invalidFile 1 (some "hello") "")) ∨
         (∃ pr, read_array rc.1.toNat rc.2.1.toNat rc.2.2 = .ok pr ∧
            read_line pr.2 = .error (.invalidFile 1 (some "hello") ""))))) :=
  ⟨(C9_empty_description_exactly_two_kinds "matrix 9999 9999\nend\n".data ⟨[], 0, [], none⟩
      "" 1 (some "9999") _).1 (by with_unfolding_all decide),
   (C9_empty_description_exactly_two_kinds "hello\n".data ⟨[], 0, [], none⟩
      "" 1 (some "hello") "").2.2.2.2.2.2 (by with_unfolding_all decide)⟩

theorem fgetsGo_replicate (rest : List Char) :
    ∀ k n, k ≤ n → fgetsGo k (List.replicate n '#' ++ rest) =
      (List.replicate k '#', List.replicate (n - k) '#' ++ rest) := by
  intro k
  induction k with
  | zero => intro n h; simp [fgetsGo]
  | succ k ih =>
    intro n h
    obtain ⟨m, rfl⟩ : ∃ m, n = m + 1 := ⟨n - 1, by omega⟩
    rw [List.replicate_succ, List.cons_append]
    show (if '#' = '\n' then (['#'], List.replicate m '#' ++ rest)
      else
        let p := fgetsGo k (List.replicate m '#' ++ rest)
        ('#' :: p.1, p.2)) = _
    rw [if_neg (by decide)]
    show ('#' :: (fgetsGo k (List.replicate m '#' ++ rest)).1,
      (fgetsGo k (List.replicate m '#' ++ rest)).2) = _
    rw [ih m (by omega)]
    have harith : m + 1 - (k + 1) = m - k := by omega
    rw [harith, ← List.replicate_succ]

theorem tokenizeGo_replicate_hash : ∀ (k : ℕ) (acc : List Char),
    tokenizeGo (List.replicate k '#') acc =
      if (acc.reverse ++ List.replicate k '#').isEmpty then []
      else [String.mk (acc.reverse ++ List.replicate k '#')] := by
  intro k
  induction k with
  | zero =>
    intro acc
    show (if acc.isEmpty then [] else [String.mk acc.reverse]) = _
    by_cases ha : acc = []
    · subst ha
      simp
    · rw [if_neg (by simpa using ha), if_neg (by simp [ha])]
      simp
  | succ k ih =>
    intro acc
    rw [List.replicate_succ]
    show tokenizeGo ('#' :: List.replicate k '#') acc = _
    have hsep : ¬ isTokenSep '#' = true := by decide
    show (if isTokenSep '#' = true then
        if acc.isEmpty then tokenizeGo (List.replicate k '#') []
        else String.mk acc.reverse :: tokenizeGo (List.replicate k '#') []
      else tokenizeGo (List.replicate k '#') ('#' :: acc)) = _
    rw [if_neg hsep, ih ('#' :: acc)]
    rw [if_neg (by simp)]
    rw [if_neg (by simp)]
    simp [List.reverse_cons, List.append_assoc, List.replicate_succ]

theorem tokenize_replicate_hash (k : ℕ) :
    tokenize (List.replicate (k + 1) '#') = [String.mk (List.replicate (k + 1) '#')] := by
  show tokenizeGo (List.replicate (k + 1) '#') [] = _
  rw [tokenizeGo_replicate_hash (k + 1) []]
  rw [if_neg (by simp [List.replicate_succ])]
  simp

/-- A line of at least `MAX_LINE_LENGTH - 1` `#` characters: `fgets` reads
only the first `MAX_LINE_LENGTH - 1` of them, which form a comment token,
so `read_line` silently skips them and continues with the rest of the
line as though it were a fresh line. -/
theorem read_lineF_skip_long_comment (fuel n : ℕ) (hn : MAX_LINE_LENGTH - 1 ≤ n)
    (rest : List Char) (ln : ℕ) (tks : List String) (tok : Option String) :
    read_lineF (fuel + 1) ⟨List.replicate n '#' ++ rest, ln, tks, tok⟩ =
      read_lineF fuel ⟨List.replicate (n - (MAX_LINE_LENGTH - 1)) '#' ++ rest, ln + 1, [],
        some (String.mk (List.replicate (MAX_LINE_LENGTH - 1) '#'))⟩ := by
  have hn39 : 39999 ≤ n := hn
  obtain ⟨m, hm⟩ : ∃ m, n = m + 1 := ⟨n - 1, by omega⟩
  have hchunk : fgetsGo (MAX_LINE_LENGTH - 1) (List.replicate n '#' ++ rest) =
      (List.replicate (MAX_LINE_LENGTH - 1) '#',
        List.replicate (n - (MAX_LINE_LENGTH - 1)) '#' ++ rest) :=
    fgetsGo_replicate rest (MAX_LINE_LENGTH - 1) n hn
  have htok : tokenize (List.replicate (MAX_LINE_LENGTH - 1) '#') =
      [String.mk (List.replicate (MAX_LINE_LENGTH - 1) '#')] := by
    rw [show MAX_LINE_LENGTH - 1 = 39998 + 1 from rfl]
    exact tokenize_replicate_hash 39998
  have hhead : (String.mk (List.replicate (MAX_LINE_LENGTH - 1) '#')).data.head? =
      some '#' := by
    rw [show MAX_LINE_LENGTH - 1 = 39998 + 1 from rfl, List.replicate_succ]
    rfl
  conv_lhs =>
    rw [hm, List.replicate_succ, List.cons_append]
  show (match tokenize (fgetsGo (MAX_LINE_LENGTH - 1)
      ('#' :: (List.replicate m '#' ++ rest))).1 with
    | [] => read_lineF fuel ⟨(fgetsGo (MAX_LINE_LENGTH - 1)
        ('#' :: (List.replicate m '#' ++ rest))).2, ln + 1, [], none⟩
    | t :: ts =>
      if t.data.head? = some '#' then
        read_lineF fuel ⟨(fgetsGo (MAX_LINE_LENGTH - 1)
          ('#' :: (List.replicate m '#' ++ rest))).2, ln + 1, ts, some t⟩
      else .ok ⟨(fgetsGo (MAX_LINE_LENGTH - 1)
        ('#' :: (List.replicate m '#' ++ rest))).2, ln + 1, ts, some t⟩) = _
  rw [show ('#' :: (List.replicate m '#' ++ rest)) = List.replicate n '#' ++ rest from by
    rw [hm, List.replicate_succ, List.cons_append]]
  rw [hchunk, htok]
  show (if (String.mk (List.replicate (MAX_LINE_LENGTH - 1) '#')).data.head? = some '#' then
      read_lineF fuel ⟨List.replicate (n - (MAX_LINE_LENGTH - 1)) '#' ++ rest, ln + 1, [],
        some (String.mk (List.replicate (MAX_LINE_LENGTH - 1) '#'))⟩
    else _) = _
  rw [if_pos hhead]

theorem fgetsGo_append (k : ℕ) : ∀ s : List Char, (fgetsGo k s).1 ++ (fgetsGo k s).2 = s := by
  induction k with
  | zero => intro s; simp [fgetsGo]
  | succ k ih =>
    intro s
    match s with
    | [] => simp [fgetsGo]
    | c :: cs =>
      by_cases hc : c = '\n'
      · simp [fgetsGo, hc]
      · simp [fgetsGo, hc, ih cs]

theorem fgetsGo_ne_nil (k : ℕ) (c : Char) (cs : List Char) :
    (fgetsGo (k + 1) (c :: cs)).1 ≠ [] := by
  by_cases hc : c = '\n' <;> simp [fgetsGo, hc]

/-- The `read_line` recursion consumes at least one character per step, so
any fuel beyond the remaining input length computes the same result. -/
theorem read_lineF_fuel : ∀ (L : ℕ) (c : Ctx) (f g : ℕ), c.rest.length ≤ L →
    c.rest.length < f → c.rest.length < g → read_lineF f c = read_lineF g c := by
  intro L
  induction L with
  | zero =>
    intro c f g hL hf hg
    obtain ⟨f', rfl⟩ : ∃ f', f = f' + 1 := ⟨f - 1, by omega⟩
    obtain ⟨g', rfl⟩ : ∃ g', g = g' + 1 := ⟨g - 1, by omega⟩
    have hnil : c.rest = [] := by
      cases hr : c.rest with
      | nil => rfl
      | cons x xs => rw [hr] at hL; simp at hL
    simp only [read_lineF, hnil]
  | succ L ih =>
    intro c f g hL hf hg
    obtain ⟨f', rfl⟩ : ∃ f', f = f' + 1 := ⟨f - 1, by omega⟩
    obtain ⟨g', rfl⟩ : ∃ g', g = g' + 1 := ⟨g - 1, by omega⟩
    cases hr : c.rest with
    | nil => simp only [read_lineF, hr]
    | cons x xs =>
      simp only [read_lineF, hr]
      have hcons : (fgetsGo (MAX_LINE_LENGTH - 1) (x :: xs)).1 ≠ [] := by
        rw [show MAX_LINE_LENGTH - 1 = 39998 + 1 from rfl]
        exact fgetsGo_ne_nil 39998 x xs
      have hsplit := fgetsGo_append (MAX_LINE_LENGTH - 1) (x :: xs)
      have hlt : (fgetsGo (MAX_LINE_LENGTH - 1) (x :: xs)).2.length < c.rest.length := by
        rw [hr]
        have := congrArg List.length hsplit
        rw [List.length_append] at this
        have hpos : 0 < (fgetsGo (MAX_LINE_LENGTH - 1) (x :: xs)).1.length :=
          List.length_pos.mpr hcons
        omega
      have hrec : ∀ tks tok,
          read_lineF f' ⟨(fgetsGo (MAX_LINE_LENGTH - 1) (x :: xs)).2, c.line_number + 1,
            tks, tok⟩ =
          read_lineF g' ⟨(fgetsGo (MAX_LINE_LENGTH - 1) (x :: xs)).2, c.line_number + 1,
            tks, tok⟩ := by
        intro tks tok
        exact ih _ f' g' (by simp only []; omega) (by simp only []; omega)
          (by simp only []; omega)
      cases htk : tokenize (fgetsGo (MAX_LINE_LENGTH - 1) (x :: xs)).1 with
      | nil => exact hrec [] none
      | cons t ts =>
        dsimp only
        by_cases hh : t.data.head? = some '#'
        · rw [if_pos hh, if_pos hh]
          exact hrec ts (some t)
        · rw [if_neg hh, if_neg hh]

/-- `read_lineF_skip_long_comment`, lifted to `read_line` on both sides so
that no over-long list length ever has to be evaluated. -/
theorem read_line_skip_long_comment (n : ℕ) (hn : MAX_LINE_LENGTH - 1 ≤ n)
    (rest : List Char) (ln : ℕ) (tks : List String) (tok : Option String) :
    read_line ⟨List.replicate n '#' ++ rest, ln, tks, tok⟩ =
      read_line ⟨List.replicate (n - (MAX_LINE_LENGTH - 1)) '#' ++ rest, ln + 1, [],
        some (String.mk (List.replicate (MAX_LINE_LENGTH - 1) '#'))⟩ := by
  have hn39 : 39999 ≤ n := hn
  show read_lineF ((List.replicate n '#' ++ rest).length + 1)
      ⟨List.replicate n '#' ++ rest, ln, tks, tok⟩ = _
  rw [read_lineF_skip_long_comment ((List.replicate n '#' ++ rest).length) n hn rest ln tks tok]
  show _ = read_lineF ((List.replicate (n - (MAX_LINE_LENGTH - 1)) '#' ++ rest).length + 1)
      ⟨List.replicate (n - (MAX_LINE_LENGTH - 1)) '#' ++ rest, ln + 1, [],
        some (String.mk (List.replicate (MAX_LINE_LENGTH - 1) '#'))⟩
  apply read_lineF_fuel ((List.replicate (n - (MAX_LINE_LENGTH - 1)) '#' ++ rest).length)
  · exact le_refl _
  · show (List.replicate (n - (MAX_LINE_LENGTH - 1)) '#' ++ rest).length <
      (List.replicate n '#' ++ rest).length
    rw [List.length_append, List.length_append, List.length_replicate, List.length_replicate]
    rw [show MAX_LINE_LENGTH - 1 = 39999 from rfl]
    omega
  · exact Nat.lt_succ_self _

theorem read_matrix_eq_body (src : List Char) (c1 : Ctx)
    (h : read_line ⟨src, 0, [], none⟩ = .ok c1) : read_matrix src = read_matrix_body c1 := by
  simp only [read_matrix]
  rw [h]

/-- C8 (the claimed `IOFailure` on over-long lines does not happen): a
source whose first line consists of `40000` `#` characters — one more than
`fgets` can take in one call, so the line exceeds the configured maximum —
is not rejected at all, let alone with an `IOFailure`: `fgets` silently
splits it into two chunks (both comment tokens here) and the parse
succeeds.  (`read_matrix` has no `IOFailure` outcome: the only
`FILE_OPEN_ERROR` exit happens at `fopen`, before parsing.) -/
theorem C8_long_line_splits_and_parses :
    MAX_LINE_LENGTH ≤ (List.replicate 40000 '#').length ∧
    read_matrix (List.replicate 40000 '#' ++ '\n' :: "matrix 1 1\n5\nend\n".data) =
      .ok ⟨1, 1, [5]⟩ := by
  constructor
  · rw [List.length_replicate]
    exact le_refl _
  · have hfull : read_line ⟨List.replicate 40000 '#' ++ '\n' :: "matrix 1 1\n5\nend\n".data,
        0, [], none⟩ = .ok ⟨"5\nend\n".data, 3, ["1", "1"], some "matrix"⟩ := by
      have hA := read_line_skip_long_comment 40000 (by decide)
        ('\n' :: "matrix 1 1\n5\nend\n".data) 0 [] none
      rw [show (40000 : ℕ) - (MAX_LINE_LENGTH - 1) = 1 from rfl] at hA
      rw [hA]
      with_unfolding_all decide
    rw [read_matrix_eq_body _ _ hfull]
    with_unfolding_all decide

end MatrixCalc
